import Mathlib

/-!
Shallow embedding of the IPRD ingestion-and-validation pipeline
(`scripts/generate_site_data.py` and `scripts/validate_streams.py`)
together with proofs about the properties stated in the specification.

Strings are modelled as Lean `String`s (lists of characters); per-line
processing works on `List Char`.  Machine reals are modelled as `ℚ`.
External library calls (country/language lookup tables, audio-format
inference helpers) are passed in as explicit parameters; the MD5 digest
used for station ids is implemented bit-faithfully on `Nat`.
-/

namespace IPRD

/-! ### Character and list helpers -/

/-- Python `str.upper()` (character-wise case mapping). -/
def strUpper (s : String) : String := String.mk (s.toList.map Char.toUpper)

/-- Python `str.lower()` (character-wise case mapping). -/
def strLower (s : String) : String := String.mk (s.toList.map Char.toLower)

/-- Model of Python's `str.strip()` on a list of characters. -/
def trimChars (l : List Char) : List Char :=
  ((l.dropWhile Char.isWhitespace).reverse.dropWhile Char.isWhitespace).reverse

/-- Model of Python's `str.split(';')`: always returns at least one piece,
`"".split(';') == [""]`. -/
def splitSemi : List Char → List (List Char)
  | [] => [[]]
  | c :: cs =>
    if c = ';' then [] :: splitSemi cs
    else
      match splitSemi cs with
      | g :: gs => (c :: g) :: gs
      | [] => [[c]]

/-- Join a list of character lists with a separator (Python `sep.join`). -/
def joinChars (sep : List Char) : List (List Char) → List Char
  | [] => []
  | [x] => x
  | x :: xs => x ++ sep ++ joinChars sep xs

/-! ### MD5 (as used by `hashlib.md5(url).hexdigest()`) -/

/-- Truncate to an unsigned 32-bit value. -/
def u32 (n : Nat) : Nat := n % 4294967296

/-- 32-bit left rotation. -/
def rotl32 (x s : Nat) : Nat := u32 (x <<< s) ||| (u32 x >>> (32 - s))

/-- MD5 sine-derived constant table. -/
def md5K : List Nat :=
  [3614090360, 3905402710, 606105819, 3250441966, 4118548399, 1200080426,
   2821735955, 4249261313, 1770035416, 2336552879, 4294925233, 2304563134,
   1804603682, 4254626195, 2792965006, 1236535329, 4129170786, 3225465664,
   643717713, 3921069994, 3593408605, 38016083, 3634488961, 3889429448,
   568446438, 3275163606, 4107603335, 1163531501, 2850285829, 4243563512,
   1735328473, 2368359562, 4294588738, 2272392833, 1839030562, 4259657740,
   2763975236, 1272893353, 4139469664, 3200236656, 681279174, 3936430074,
   3572445317, 76029189, 3654602809, 3873151461, 530742520, 3299628645,
   4096336452, 1126891415, 2878612391, 4237533241, 1700485571, 2399980690,
   4293915773, 2240044497, 1873313359, 4264355552, 2734768916, 1309151649,
   4149444226, 3174756917, 718787259, 3951481745]

/-- MD5 per-round shift amounts. -/
def md5S : List Nat :=
  [7, 12, 17, 22, 7, 12, 17, 22, 7, 12, 17, 22, 7, 12, 17, 22,
   5, 9, 14, 20, 5, 9, 14, 20, 5, 9, 14, 20, 5, 9, 14, 20,
   4, 11, 16, 23, 4, 11, 16, 23, 4, 11, 16, 23, 4, 11, 16, 23,
   6, 10, 15, 21, 6, 10, 15, 21, 6, 10, 15, 21, 6, 10, 15, 21]

/-- UTF-8 encoding of a single character (Python `str.encode()`). -/
def utf8Char (c : Char) : List Nat :=
  let n := c.toNat
  if n < 128 then [n]
  else if n < 2048 then [192 ||| (n >>> 6), 128 ||| (n &&& 63)]
  else if n < 65536 then
    [224 ||| (n >>> 12), 128 ||| ((n >>> 6) &&& 63), 128 ||| (n &&& 63)]
  else
    [240 ||| (n >>> 18), 128 ||| ((n >>> 12) &&& 63),
     128 ||| ((n >>> 6) &&& 63), 128 ||| (n &&& 63)]

/-- UTF-8 byte sequence of a string. -/
def utf8Bytes (s : String) : List Nat := s.toList.foldr (fun c acc => utf8Char c ++ acc) []

/-- Little-endian byte decomposition. -/
def leBytes : Nat → Nat → List Nat
  | 0, _ => []
  | k + 1, n => (n % 256) :: leBytes k (n / 256)

/-- MD5 message padding: a 0x80 byte, zero padding to 56 mod 64, then the
64-bit little-endian bit length. -/
def md5Pad (m : List Nat) : List Nat :=
  let L := m.length
  let k := (64 + 56 - ((L + 1) % 64)) % 64
  m ++ [128] ++ List.replicate k 0 ++ leBytes 8 ((8 * L) % 18446744073709551616)

/-- Group bytes into little-endian 32-bit words. -/
def toWords : List Nat → List Nat
  | b0 :: b1 :: b2 :: b3 :: rest =>
    (b0 + (b1 <<< 8) + (b2 <<< 16) + (b3 <<< 24)) :: toWords rest
  | _ => []

/-- Split a byte list into 64-byte chunks. -/
def chunks64 (l : List Nat) : List (List Nat) :=
  match l with
  | [] => []
  | x :: xs => (x :: xs.take 63) :: chunks64 (xs.drop 63)
termination_by l.length
decreasing_by simp [List.length_drop]; omega

/-- One MD5 round (round index `i`, message words `M`). -/
def md5Step (M : List Nat) (st : Nat × Nat × Nat × Nat) (i : Nat) : Nat × Nat × Nat × Nat :=
  let (a, b, c, d) := st
  let (f, g) :=
    if i < 16 then ((b &&& c) ||| ((b ^^^ 4294967295) &&& d), i)
    else if i < 32 then ((d &&& b) ||| ((d ^^^ 4294967295) &&& c), (5 * i + 1) % 16)
    else if i < 48 then (b ^^^ c ^^^ d, (3 * i + 5) % 16)
    else (c ^^^ (b ||| (d ^^^ 4294967295)), (7 * i) % 16)
  let f := u32 (f + a + md5K.getD i 0 + M.getD g 0)
  (d, u32 (b + rotl32 f (md5S.getD i 0)), b, c)

/-- Process one 64-byte chunk. -/
def md5Chunk (st : Nat × Nat × Nat × Nat) (chunk : List Nat) : Nat × Nat × Nat × Nat :=
  let M := toWords chunk
  let (a, b, c, d) := (List.range 64).foldl (md5Step M) st
  let (a0, b0, c0, d0) := st
  (u32 (a0 + a), u32 (b0 + b), u32 (c0 + c), u32 (d0 + d))

/-- Lowercase hexadecimal digit. -/
def hexDigit (n : Nat) : Char :=
  if n < 10 then Char.ofNat (48 + n) else Char.ofNat (87 + n)

/-- Two lowercase hex characters of a byte. -/
def byteHex (b : Nat) : List Char := [hexDigit (b / 16), hexDigit (b % 16)]

/-- `hashlib.md5(s.encode()).hexdigest()`. -/
def md5hex (s : String) : String :=
  let (a, b, c, d) :=
    (chunks64 (md5Pad (utf8Bytes s))).foldl md5Chunk
      (1732584193, 4023233417, 2562383102, 271733878)
  String.mk (((leBytes 4 a ++ leBytes 4 b ++ leBytes 4 c ++ leBytes 4 d).map byteHex).flatten)

/-! ### The EXTINF line matcher

Model of `EXTINF_PATTERN.search` for the pattern
`tvg-logo="([^"]*)".*group-title="([^"]*)",(.*)` with Python `re`
semantics: the match starts at the leftmost occurrence of the literal
`tvg-logo="`, group 1 runs to the first following quote, the greedy `.*`
selects the rightmost occurrence of `group-title="` whose quoted value is
immediately followed by a comma, and group 3 is the remainder of the line. -/

/-- Split a character list at the first `"`; `none` when no quote occurs
(this is `([^"]*)` followed by a literal quote). -/
def splitAtQuote : List Char → Option (List Char × List Char)
  | [] => none
  | c :: cs =>
    if c = '"' then some ([], cs)
    else
      match splitAtQuote cs with
      | some (a, b) => some (c :: a, b)
      | none => none

/-- The literal `group-title="`. -/
def litGroupTitle : List Char :=
  ['g', 'r', 'o', 'u', 'p', '-', 't', 'i', 't', 'l', 'e', '=', '"']

/-- The literal `tvg-logo="`. -/
def litTvgLogo : List Char := ['t', 'v', 'g', '-', 'l', 'o', 'g', 'o', '=', '"']

/-- Try to match `group-title="([^"]*)",(.*)` at the head of the list,
returning (group-title value, display name). -/
def matchGT (cs : List Char) : Option (List Char × List Char) :=
  if litGroupTitle.isPrefixOf cs then
    match splitAtQuote (cs.drop litGroupTitle.length) with
    | some (g2, rest) =>
      match rest with
      | ',' :: g3 => some (g2, g3)
      | _ => none
    | none => none
  else none

/-- Rightmost position at which `matchGT` succeeds (the greedy `.*`). -/
def searchLastGT : List Char → Option (List Char × List Char)
  | [] => none
  | c :: cs =>
    match searchLastGT cs with
    | some r => some r
    | none => matchGT (c :: cs)

/-- Try to match the whole pattern anchored at the head of the list. -/
def matchFrom (cs : List Char) : Option (List Char × List Char × List Char) :=
  if litTvgLogo.isPrefixOf cs then
    match splitAtQuote (cs.drop litTvgLogo.length) with
    | some (g1, rest) =>
      match searchLastGT rest with
      | some (g2, g3) => some (g1, g2, g3)
      | none => none
    | none => none
  else none

/-- `EXTINF_PATTERN.search`: leftmost position at which the pattern matches,
with groups (logo, group-title, display name). -/
def extinfSearch : List Char → Option (List Char × List Char × List Char)
  | [] => none
  | c :: cs =>
    match matchFrom (c :: cs) with
    | some r => some r
    | none => extinfSearch cs

/-! ### Station records and the station id (`generate_station_id`) -/

/-- A parsed station record (the dict built by `parse_m3u_file`).
`source_file` is attached later by `get_all_stations` and defaults to `""`. -/
structure RawStation where
  name : String
  logo : String
  genres : List String
  country_code : String
  country : String
  language : List String
  url : String
  format : String
  bitrate : Nat
  id : String
  source_file : String
deriving Repr, DecidableEq

/-- `STATION_ID_CLEAN_PATTERN.sub('-', base)`: replace every character
outside `[a-z0-9]` with a hyphen. -/
def cleanChars (l : List Char) : List Char :=
  l.map fun c => if ('a' ≤ c ∧ c ≤ 'z') ∨ ('0' ≤ c ∧ c ≤ '9') then c else '-'

/-- `STATION_ID_HYPHEN_PATTERN.sub('-', base)`: collapse runs of hyphens. -/
def collapseHyphens : List Char → List Char
  | [] => []
  | [c] => [c]
  | a :: b :: cs =>
    if a = '-' ∧ b = '-' then collapseHyphens (b :: cs)
    else a :: collapseHyphens (b :: cs)

/-- `base.strip('-')`. -/
def stripHyphens (l : List Char) : List Char :=
  ((l.dropWhile (· = '-')).reverse.dropWhile (· = '-')).reverse

/-- The slug part of a station id, from country code and name. -/
def stationSlug (country_code name : String) : String :=
  let base := strLower country_code ++ "-" ++ strLower name
  let base := cleanChars base.toList
  let base := collapseHyphens base
  String.mk (stripHyphens base)

/-- `generate_station_id`: slug plus the first 8 hex characters of the MD5
digest of the url. -/
def generate_station_id (station : RawStation) : String :=
  stationSlug station.country_code station.name ++ "-" ++
    String.mk ((md5hex station.url).toList.take 8)

/-! ### The playlist parser (`parse_m3u_file`) -/

/-- The station fields captured from an EXTINF line before its URL arrives. -/
structure PendingStation where
  name : String
  logo : String
  genres : List String
deriving Repr, DecidableEq

/-- The characters of `//` (the comment marker). -/
def litSlashes : List Char := ['/', '/']

/-- The characters of the `#EXTM3U` header tag. -/
def litExtM3U : List Char := ['#', 'E', 'X', 'T', 'M', '3', 'U']

/-- The characters of the `#EXTINF:` tag. -/
def litExtinfTag : List Char := ['#', 'E', 'X', 'T', 'I', 'N', 'F', ':']

/-- The characters of `http://`. -/
def litHttp : List Char := ['h', 't', 't', 'p', ':', '/', '/']

/-- The characters of `https://`. -/
def litHttps : List Char := ['h', 't', 't', 'p', 's', ':', '/', '/']

/-- Does a (stripped) line start with `http://` or `https://`? -/
def isHttpLine (cs : List Char) : Bool :=
  litHttp.isPrefixOf cs || litHttps.isPrefixOf cs

/-- Complete a pending station with its URL line: infer format and bitrate,
then attach the generated id (`determine_audio_format` and
`extract_bitrate_from_url` are supplied as parameters). -/
def mkStation (fmt : String → String × Nat) (ebr : String → Nat)
    (cc_upper country : String) (language : List String)
    (p : PendingStation) (url : String) : RawStation :=
  let st : RawStation :=
    { name := p.name, logo := p.logo, genres := p.genres,
      country_code := cc_upper, country := country, language := language,
      url := url, format := (fmt url).1,
      bitrate := if ebr url ≠ 0 then ebr url else (fmt url).2,
      id := "", source_file := "" }
  { st with id := generate_station_id st }

/-- The line loop of `parse_m3u_file`, carrying the `current_station`
state. -/
def parseLoop (fmt : String → String × Nat) (ebr : String → Nat)
    (cc_upper country : String) (language : List String) :
    List (List Char) → Option PendingStation → List RawStation
  | [], _ => []
  | l :: ls, cur =>
    if trimChars l = [] ∨ litSlashes.isPrefixOf (trimChars l) = true ∨
        litExtM3U.isPrefixOf (trimChars l) = true then
      parseLoop fmt ebr cc_upper country language ls cur
    else if litExtinfTag.isPrefixOf (trimChars l) = true then
      match extinfSearch (trimChars l) with
      | some (g1, g2, g3) =>
        parseLoop fmt ebr cc_upper country language ls
          (some { name := String.mk (trimChars g3), logo := String.mk g1,
                  genres := (splitSemi g2).map fun g => String.mk (trimChars g) })
      | none => parseLoop fmt ebr cc_upper country language ls cur
    else
      match cur with
      | some p =>
        if isHttpLine (trimChars l) = true then
          mkStation fmt ebr cc_upper country language p (String.mk (trimChars l)) ::
            parseLoop fmt ebr cc_upper country language ls none
        else parseLoop fmt ebr cc_upper country language ls cur
      | none => parseLoop fmt ebr cc_upper country language ls cur

/-- `parse_m3u_file`: the country code is the parent directory name and is
upper-cased; country name and languages come from the injected lookups. -/
def parse_m3u_file (fmt : String → String × Nat) (ebr : String → Nat)
    (country_code country : String) (language : List String)
    (lines : List (List Char)) : List RawStation :=
  parseLoop fmt ebr (strUpper country_code) country language lines none

/-! ### Playlist emitters -/

/-- The characters `#EXTINF:-1 ` that precede `tvg-logo="` on an emitted
EXTINF line. -/
def extinfPrefix : List Char := ['#', 'E', 'X', 'T', 'I', 'N', 'F', ':', '-', '1', ' ']

/-- The EXTINF line emitted by `generate_unified_playlist`
(`#EXTINF:-1 tvg-logo="{logo}" group-title="{genres}",{name}`): genres
joined with `','`. -/
def unifiedExtinfLine (s : RawStation) : List Char :=
  extinfPrefix ++ litTvgLogo ++ s.logo.toList ++ ['"', ' '] ++ litGroupTitle ++
    joinChars [','] (s.genres.map String.toList) ++ ['"', ','] ++ s.name.toList

/-- `generate_unified_playlist`, as the list of lines it writes. -/
def generate_unified_playlist (stations : List RawStation) : List (List Char) :=
  "#EXTM3U".toList ::
    (stations.map fun s => [unifiedExtinfLine s, s.url.toList]).flatten

/-! ### Catalog aggregation (`generate_metadata_catalog`) -/

/-- One element of a catalog station's `streams` array. -/
structure StreamRec where
  url : String
  format : String
  bitrate : Nat
  reliability : ℚ
deriving Repr, DecidableEq

/-- One station record of the metadata catalog. -/
structure CatalogStation where
  id : String
  name : String
  country : String
  language : List String
  genres : List String
  website : String
  streams : List StreamRec
  tags : List String
  lastChecked : String
  logo : String
  source : String
deriving Repr, DecidableEq

/-- The metadata catalog. -/
structure Catalog where
  version : String
  updated : String
  stations : List CatalogStation
deriving Repr, DecidableEq

/-- Scheme-plus-host extraction from the logo URL (the
`urllib.parse.urlparse` use in `generate_metadata_catalog`): non-empty only
when the logo starts with `http` and has a non-empty host. -/
def websiteOfLogo (logo : String) : String :=
  if "http".toList.isPrefixOf logo.toList then
    match (logo.splitOn "://") with
    | scheme :: rest :: _ =>
      let netloc := (rest.toList.takeWhile fun c => c ≠ '/' ∧ c ≠ '?' ∧ c ≠ '#')
      if netloc = [] then "" else scheme ++ "://" ++ String.mk netloc
    | _ => ""
  else ""

/-- The catalog entry built for one station: reliability 0.95 for an url
validated `"ok"`, 0.3 for any other recorded status, 0.5 when unknown. -/
def catalogEntry (now : String) (validation_stations : String → Option String)
    (station : RawStation) : CatalogStation :=
  let reliability : ℚ :=
    match validation_stations station.url with
    | some status => if status = "ok" then 0.95 else 0.3
    | none => 0.5
  { id := station.id, name := station.name, country := station.country,
    language := station.language, genres := station.genres,
    website := websiteOfLogo station.logo,
    streams := [{ url := station.url, format := station.format,
                  bitrate := station.bitrate, reliability := reliability }],
    tags := if station.genres ≠ [] then station.genres.take 3 else [],
    lastChecked := now, logo := station.logo, source := station.source_file }

/-- `generate_metadata_catalog`; `now` is the formatted
`datetime.datetime.now(datetime.UTC)` reading. -/
def generate_metadata_catalog (now : String) (stations : List RawStation)
    (validation_stations : String → Option String) : Catalog :=
  { version := "1.0", updated := now,
    stations := stations.map (catalogEntry now validation_stations) }

/-! ### Genre analysis (`analyze_genres`) -/

/-- `Counter` update: increment the count of `g`, first occurrence appended
at the end (Python dict insertion order). -/
def bumpCount : List (String × Nat) → String → List (String × Nat)
  | [], g => [(g, 1)]
  | (a, n) :: rest, g =>
    if a = g then (a, n + 1) :: rest else (a, n) :: bumpCount rest g

/-- Counts of a list of strings in first-seen order. -/
def countOcc (l : List String) : List (String × Nat) := l.foldl bumpCount []

/-- Stable insertion by strictly greater count (ties keep earlier elements
first, as Python's stable sort does). -/
def insertByCount (x : String × Nat) : List (String × Nat) → List (String × Nat)
  | [] => [x]
  | y :: ys => if y.2 < x.2 then x :: y :: ys else y :: insertByCount x ys

/-- Stable sort by count, descending (`Counter.most_common`). -/
def sortByCountDesc : List (String × Nat) → List (String × Nat)
  | [] => []
  | x :: xs => insertByCount x (sortByCountDesc xs)

/-- Result of `analyze_genres`. -/
structure GenreStats where
  total_unique_genres : Nat
  top_genres : List (String × Nat)
deriving Repr, DecidableEq

/-- `analyze_genres`: case-insensitive genre frequency count over all
stations, with the top 50 genres. -/
def analyze_genres (stations : List RawStation) : GenreStats :=
  let counts := countOcc ((stations.map fun s => s.genres.map strLower).flatten)
  { total_unique_genres := counts.length,
    top_genres := (sortByCountDesc counts).take 50 }

/-! ### The stream validator (`validate_streams.py`) -/

/-- Outcome of the initial `requests.head` probe. -/
inductive HeadOutcome where
  | resp (status : Nat) (latency : ℚ)
  | timeout
  | connError
  | otherError (msg : String)
deriving Repr, DecidableEq

/-- Outcome of the fallback block (`requests.get` plus reading the first
chunk): the request may raise before a response exists, return a response
whose first chunk then fails to read, or fully succeed. -/
inductive GetOutcome where
  | raiseBeforeResponse
  | respThenReadFails (status : Nat)
  | resp (status : Nat) (latency : ℚ)
deriving Repr, DecidableEq

/-- One entry of the `details` list written by the validator. -/
structure CheckResult where
  url : Option String
  status : Nat
  working : Bool
  latency : Option ℚ
  error : Option String
  station_id : Option String
  station_name : Option String
  check_time : Option String
deriving Repr, DecidableEq

/-- The `(url, station_id, station_name)` triple handed to `check_stream`. -/
structure StreamInfo where
  url : String
  station_id : String
  station_name : String
deriving Repr, DecidableEq

/-- Python `round(q, d)` on rationals: round half to even at `d` decimal
places. -/
def pyRound (d : Nat) (q : ℚ) : ℚ :=
  let shifted := q * (10 : ℚ) ^ d
  let f : ℤ := ⌊shifted⌋
  let r : ℚ := shifted - (f : ℚ)
  let n : ℤ :=
    if r < 1 / 2 then f
    else if 1 / 2 < r then f + 1
    else if f % 2 = 0 then f else f + 1
  (n : ℚ) / (10 : ℚ) ^ d

/-- The fallback step of `check_stream`: given the HEAD status and latency,
produce the final (status, latency) pair and whether the GET fallback was
attempted.  When the GET raises before a response exists both values are
kept; when it returns a response whose first chunk fails to read, the
response (status) is already replaced but the latency line was not reached. -/
def fallbackStep (get : GetOutcome) (s : Nat) (l : ℚ) : Nat × ℚ × Bool :=
  if 400 ≤ s ∧ s < 500 then
    match get with
    | .raiseBeforeResponse => (s, l, true)
    | .respThenReadFails s2 => (s2, l, true)
    | .resp s2 l2 => (s2, l2, true)
  else (s, l, false)

/-- `check_stream`, with the network modelled by the two probe outcomes.
Returns the result record and whether the GET fallback was attempted. -/
def check_stream (now : String) (head : HeadOutcome) (get : GetOutcome)
    (info : StreamInfo) : CheckResult × Bool :=
  if info.url = "" then
    ({ url := none, status := 0, working := false, latency := none,
       error := some "Missing URL", station_id := none, station_name := none,
       check_time := none }, false)
  else
    match head with
    | .resp s l =>
      ({ url := some info.url, status := (fallbackStep get s l).1,
         working := 200 ≤ (fallbackStep get s l).1 ∧ (fallbackStep get s l).1 < 400,
         latency := some (pyRound 2 (fallbackStep get s l).2.1), error := none,
         station_id := some info.station_id,
         station_name := some info.station_name,
         check_time := some now }, (fallbackStep get s l).2.2)
    | .timeout =>
      ({ url := some info.url, status := 0, working := false, latency := none,
         error := some "Timeout", station_id := some info.station_id,
         station_name := some info.station_name, check_time := some now }, false)
    | .connError =>
      ({ url := some info.url, status := 0, working := false, latency := none,
         error := some "Connection error", station_id := some info.station_id,
         station_name := some info.station_name, check_time := some now }, false)
    | .otherError m =>
      ({ url := some info.url, status := 0, working := false, latency := none,
         error := some m, station_id := some info.station_id,
         station_name := some info.station_name, check_time := some now }, false)

/-- Insertion-ordered dict write (`results['stations'][url] = status`). -/
def dictSet : List (String × String) → String → String → List (String × String)
  | [], k, v => [(k, v)]
  | (a, b) :: r, k, v =>
    if a = k then (a, v) :: r else (a, b) :: dictSet r k v

/-- The validator's aggregated results record. -/
structure AggResults where
  total : Nat
  working : Nat
  failed : Nat
  stations : List (String × String)
  details : List CheckResult
  validation_time : String
  success_rate : ℚ
deriving Repr, DecidableEq

/-- Folding one completed check into the counters, details and per-url map
(the body of the `as_completed` loop). -/
def collectStep (acc : AggResults) (r : CheckResult) : AggResults :=
  { acc with
    total := acc.total + 1,
    working := acc.working + (if r.working then 1 else 0),
    failed := acc.failed + (if r.working then 0 else 1),
    details := acc.details ++ [r],
    stations :=
      match r.url with
      | some u =>
        if u ≠ "" then dictSet acc.stations u (if r.working then "ok" else "failed")
        else acc.stations
      | none => acc.stations }

/-- Aggregate all check results and attach the success rate
(`working/total` when `total > 0`, else `0`, rounded to 4 places). -/
def aggregateResults (now : String) (rs : List CheckResult) : AggResults :=
  let acc := rs.foldl collectStep
    { total := 0, working := 0, failed := 0, stations := [], details := [],
      validation_time := now, success_rate := 0 }
  let success_rate : ℚ :=
    if acc.total > 0 then (acc.working : ℚ) / (acc.total : ℚ) else 0
  { acc with success_rate := pyRound 4 success_rate }

/-- `extract_streams_from_catalog`. -/
def extract_streams_from_catalog (c : Catalog) : List StreamInfo :=
  (c.stations.map fun st =>
    st.streams.map fun s => StreamInfo.mk s.url st.id st.name).flatten

/-- The validator's `main`, modelled as a function from the loaded catalog
(`none` when the catalog file is missing or unreadable) and the probe
outcomes per url, to the process exit code and the results written (`none`
when no results file is written).  Every path returns normally in the
source, so the exit code is 0 throughout. -/
def validator_main (now : String) (catalog : Option Catalog)
    (heads : String → HeadOutcome) (gets : String → GetOutcome) :
    Nat × Option AggResults :=
  match catalog with
  | none => (0, none)
  | some c =>
    let streams := extract_streams_from_catalog c
    if streams.isEmpty then (0, none)
    else
      (0, some (aggregateResults now
        (streams.map fun si => (check_stream now (heads si.url) (gets si.url) si).1)))

/-! ### Definitions used to state the claims -/

/-- A trivial audio-format inferencer, used to instantiate the parser's
injected `determine_audio_format` on concrete examples. -/
def fmt0 : String → String × Nat := fun _ => ("Unknown", 0)

/-- A trivial bitrate extractor, used to instantiate the parser's injected
`extract_bitrate_from_url` on concrete examples. -/
def ebr0 : String → Nat := fun _ => 0

/-- An empty validation-results mapping. -/
def vNone : String → Option String := fun _ => none

/-- A station that is safe to emit and re-parse: its textual fields are what
the parser itself produces on well-formed input (stripped name and genres,
quoteless logo and genres, semicolonless genres, a non-empty genre list and
a stripped `http(s)://` url), with the extra requirement that the display
name contains no quote character. -/
def EmitSafe (s : RawStation) : Prop :=
  trimChars s.name.toList = s.name.toList ∧ '"' ∉ s.name.toList ∧
  '"' ∉ s.logo.toList ∧
  s.genres ≠ [] ∧
  (∀ g ∈ s.genres, trimChars g.toList = g.toList ∧ '"' ∉ g.toList ∧ ';' ∉ g.toList) ∧
  trimChars s.url.toList = s.url.toList ∧ isHttpLine s.url.toList = true

/-- The comma-join of a station's genres, as a string (what the unified
emitter writes into `group-title`). -/
def joinedGenres (s : RawStation) : String :=
  String.mk (joinChars [','] (s.genres.map String.toList))

/-- The `(name, url, genres)` view of a station, genres rendered with the
canonical `;` separator so that lists differing only in separator compare
equal. -/
def canonTriple (s : RawStation) : String × String × String :=
  (s.name, s.url, String.mk (joinChars [';'] (s.genres.map String.toList)))

/-- The round-trip property claimed for the unified playlist: emitting and
re-parsing reproduces the same set of `(name, url, genres)` tuples, modulo
the canonical genre separator. -/
def RoundTripClaim (fmt : String → String × Nat) (ebr : String → Nat)
    (country_code country : String) (language : List String)
    (stations : List RawStation) : Prop :=
  ((parse_m3u_file fmt ebr country_code country language
      (generate_unified_playlist stations)).map canonTriple).toFinset =
    (stations.map canonTriple).toFinset

/-- A catalog with the two timestamp fields blanked (everything except the
clock reading). -/
def eraseTimes (c : Catalog) : Catalog :=
  { c with updated := "",
           stations := c.stations.map fun e => { e with lastChecked := "" } }

/-- A concrete playlist with one two-genre station, used as the round-trip
counterexample. -/
def cexLines : List (List Char) :=
  ["#EXTM3U".toList,
   "#EXTINF:-1 tvg-logo=\"http://logo/x.png\" group-title=\"Jazz;Pop\",Cool FM".toList,
   "http://example.com/a.mp3".toList]

/-- The stations the parser produces from `cexLines`. -/
def cexStations : List RawStation :=
  parse_m3u_file fmt0 ebr0 "fr" "France" ["French"] cexLines

/-- A concrete EXTINF line whose `group-title` attribute is empty. -/
def emptyGenreLine : List Char :=
  "#EXTINF:-1 tvg-logo=\"\" group-title=\"\",Name".toList

/-- A concrete URL line. -/
def exUrlLine : List Char := "http://x/s".toList

/-- The single station parsed from `emptyGenreLine` and `exUrlLine`. -/
def emptyGenreStation : RawStation :=
  mkStation fmt0 ebr0 "XX" "X" [] { name := "Name", logo := "", genres := [""] } "http://x/s"

/-- A concrete station record used by witnesses. -/
def wStation : RawStation :=
  { name := "N", logo := "http://l", genres := ["g"], country_code := "XX",
    country := "X", language := [], url := "http://a", format := "MP3",
    bitrate := 128, id := "i", source_file := "f" }

/-- A validation mapping that records `wStation`'s url as `"ok"`. -/
def wVal : String → Option String :=
  fun u => if u = "http://a" then some "ok" else none

/-- A station record for the id-purity witness. -/
def wsA : RawStation :=
  { name := "Name", logo := "logoA", genres := ["x"], country_code := "FR",
    country := "France", language := ["French"], url := "http://u",
    format := "MP3", bitrate := 128, id := "idA", source_file := "fileA" }

/-- A second station, equal to `wsA` only on `(country_code, name, url)`. -/
def wsB : RawStation :=
  { name := "Name", logo := "logoB", genres := ["y"], country_code := "FR",
    country := "Francia", language := [], url := "http://u",
    format := "AAC", bitrate := 64, id := "idB", source_file := "fileB" }

/-- Three concrete check results, one of them working. -/
def cexChecks : List CheckResult :=
  [{ url := some "http://a", status := 200, working := true, latency := some 1,
     error := none, station_id := some "a", station_name := some "A",
     check_time := some "T" },
   { url := some "http://b", status := 500, working := false, latency := some 1,
     error := none, station_id := some "b", station_name := some "B",
     check_time := some "T" },
   { url := some "http://c", status := 0, working := false, latency := none,
     error := some "Timeout", station_id := some "c", station_name := some "C",
     check_time := some "T" }]

/-! ## Theorems -/

/-! ### Helper lemmas about the slug pipeline -/

/-- The literal char lists used by the parser are the listed strings. -/
theorem literals_eq :
    litSlashes = "//".toList ∧ litExtM3U = "#EXTM3U".toList ∧
    litExtinfTag = "#EXTINF:".toList ∧ litHttp = "http://".toList ∧
    litHttps = "https://".toList ∧ litTvgLogo = "tvg-logo=\"".toList ∧
    litGroupTitle = "group-title=\"".toList ∧
    extinfPrefix = "#EXTINF:-1 ".toList := by
  refine ⟨rfl, rfl, rfl, rfl, rfl, rfl, rfl, rfl⟩

/-- Every character of `cleanChars l` is a lowercase letter, a digit or a
hyphen. -/
theorem mem_cleanChars {c : Char} {l : List Char} (h : c ∈ cleanChars l) :
    ('a' ≤ c ∧ c ≤ 'z') ∨ ('0' ≤ c ∧ c ≤ '9') ∨ c = '-' := by
  simp only [cleanChars, List.mem_map] at h
  obtain ⟨x, -, hx⟩ := h
  by_cases hc : ('a' ≤ x ∧ x ≤ 'z') ∨ ('0' ≤ x ∧ x ≤ '9')
  · rw [if_pos hc] at hx
    subst hx
    rcases hc with h1 | h2
    · exact Or.inl h1
    · exact Or.inr (Or.inl h2)
  · rw [if_neg hc] at hx
    exact Or.inr (Or.inr hx.symm)

/-- `collapseHyphens` only keeps characters of its input. -/
theorem collapseHyphens_subset : ∀ l : List Char, ∀ c ∈ collapseHyphens l, c ∈ l
  | [] => by simp [collapseHyphens]
  | [a] => by simp [collapseHyphens]
  | a :: b :: cs => by
    intro c hc
    by_cases h : a = '-' ∧ b = '-'
    · rw [show collapseHyphens (a :: b :: cs) = collapseHyphens (b :: cs) by
        simp [collapseHyphens, h]] at hc
      exact List.mem_cons_of_mem a (collapseHyphens_subset (b :: cs) c hc)
    · rw [show collapseHyphens (a :: b :: cs) = a :: collapseHyphens (b :: cs) by
        simp [collapseHyphens, h]] at hc
      rw [List.mem_cons] at hc
      rcases hc with rfl | hc
      · exact List.mem_cons_self c _
      · exact List.mem_cons_of_mem a (collapseHyphens_subset (b :: cs) c hc)

/-- The head of `collapseHyphens` is the head of its input. -/
theorem collapseHyphens_head? : ∀ (b : Char) (cs : List Char),
    (collapseHyphens (b :: cs)).head? = some b
  | _, [] => rfl
  | b, c :: cs => by
    by_cases h : b = '-' ∧ c = '-'
    · rw [show collapseHyphens (b :: c :: cs) = collapseHyphens (c :: cs) by
        simp [collapseHyphens, h]]
      rw [collapseHyphens_head? c cs, h.1, h.2]
    · simp [collapseHyphens, h]

/-- `collapseHyphens` leaves no two adjacent hyphens. -/
theorem collapseHyphens_chain :
    ∀ l : List Char,
      List.Chain' (fun a b => ¬(a = '-' ∧ b = '-')) (collapseHyphens l)
  | [] => by simp [collapseHyphens]
  | [a] => by simp [collapseHyphens]
  | a :: b :: cs => by
    by_cases h : a = '-' ∧ b = '-'
    · rw [show collapseHyphens (a :: b :: cs) = collapseHyphens (b :: cs) by
        simp [collapseHyphens, h]]
      exact collapseHyphens_chain (b :: cs)
    · rw [show collapseHyphens (a :: b :: cs) = a :: collapseHyphens (b :: cs) by
        simp [collapseHyphens, h]]
      refine List.chain'_cons'.mpr ⟨?_, collapseHyphens_chain (b :: cs)⟩
      intro y hy
      rw [collapseHyphens_head? b cs, Option.mem_def, Option.some.injEq] at hy
      subst hy
      exact h

/-- The head of a `dropWhile` result never satisfies the predicate. -/
theorem dropWhile_head?_false {α : Type} {p : α → Bool} :
    ∀ (l : List α) (c : α), (List.dropWhile p l).head? = some c → p c = false
  | [], c => by simp [List.dropWhile]
  | a :: l, c => by
    by_cases h : p a
    · rw [List.dropWhile_cons_of_pos h]
      exact dropWhile_head?_false l c
    · rw [List.dropWhile_cons_of_neg h]
      intro hc
      rw [List.head?_cons, Option.some.injEq] at hc
      subst hc
      exact Bool.eq_false_iff.mpr h

/-- `dropWhile` keeps the last element when its result is non-empty. -/
theorem getLast?_dropWhile {α : Type} {p : α → Bool} :
    ∀ m : List α, List.dropWhile p m ≠ [] →
      (List.dropWhile p m).getLast? = m.getLast?
  | [], h => by simp [List.dropWhile] at h
  | a :: m, h => by
    by_cases hp : p a
    · rw [List.dropWhile_cons_of_pos hp] at h ⊢
      have hm : m ≠ [] := by
        intro hm; rw [hm] at h; simp [List.dropWhile] at h
      obtain ⟨b, m', rfl⟩ := List.exists_cons_of_ne_nil hm
      rw [getLast?_dropWhile (b :: m') h, List.getLast?_cons_cons]
    · rw [List.dropWhile_cons_of_neg hp]

/-- The first character of `stripHyphens` is not a hyphen. -/
theorem stripHyphens_head?_ne (l : List Char) (c : Char)
    (h : (stripHyphens l).head? = some c) : c ≠ '-' := by
  unfold stripHyphens at h
  rw [List.head?_reverse] at h
  by_cases hd : List.dropWhile (· = '-') (List.dropWhile (· = '-') l).reverse = []
  · rw [hd] at h; simp at h
  · rw [getLast?_dropWhile _ hd, List.getLast?_reverse] at h
    have := dropWhile_head?_false (p := fun c => c = '-') _ _ h
    simpa using this

/-- The last character of `stripHyphens` is not a hyphen. -/
theorem stripHyphens_getLast?_ne (l : List Char) (c : Char)
    (h : (stripHyphens l).getLast? = some c) : c ≠ '-' := by
  unfold stripHyphens at h
  rw [List.getLast?_reverse] at h
  have := dropWhile_head?_false (p := fun c => c = '-') _ _ h
  simpa using this

/-- `stripHyphens` only keeps characters of its input. -/
theorem stripHyphens_subset (l : List Char) : ∀ c ∈ stripHyphens l, c ∈ l := by
  intro c hc
  unfold stripHyphens at hc
  rw [List.mem_reverse] at hc
  have h1 := (List.dropWhile_sublist (l := (List.dropWhile (· = '-') l).reverse)
    (p := (· = '-'))).subset hc
  rw [List.mem_reverse] at h1
  exact (List.dropWhile_sublist (p := (· = '-'))).subset h1

/-- `Chain'` is preserved by `dropWhile`. -/
theorem chain'_dropWhile {α : Type} {R : α → α → Prop} {p : α → Bool} :
    ∀ l : List α, List.Chain' R l → List.Chain' R (List.dropWhile p l)
  | [], h => by simp [List.dropWhile]
  | a :: l, h => by
    by_cases hp : p a
    · rw [List.dropWhile_cons_of_pos hp]
      exact chain'_dropWhile l h.tail
    · rw [List.dropWhile_cons_of_neg hp]
      exact h

/-- `stripHyphens` preserves the no-adjacent-hyphens property. -/
theorem stripHyphens_chain (l : List Char)
    (h : List.Chain' (fun a b => ¬(a = '-' ∧ b = '-')) l) :
    List.Chain' (fun a b => ¬(a = '-' ∧ b = '-')) (stripHyphens l) := by
  have symm : ∀ m : List Char,
      List.Chain' (fun a b => ¬(a = '-' ∧ b = '-')) m →
      List.Chain' (fun a b => ¬(a = '-' ∧ b = '-')) m.reverse := by
    intro m hm
    rw [List.chain'_reverse]
    exact hm.imp fun a b hab h2 => hab ⟨h2.2, h2.1⟩
  exact symm _ (chain'_dropWhile _ (symm _ (chain'_dropWhile _ h)))

/-! ### C3: the station id -/

/-- C3: the station id is a pure function of (countryCode, name, url): it
equals the slug of the lowercased country code and name followed by the
first 8 hex characters of the MD5 of the url, and the slug's characters are
in `[a-z0-9-]` with hyphen runs collapsed and boundary hyphens trimmed. -/
theorem C3_station_id_pure :
    (∀ s t : RawStation, s.country_code = t.country_code → s.name = t.name →
      s.url = t.url → generate_station_id s = generate_station_id t) ∧
    (∀ s : RawStation, generate_station_id s =
      stationSlug s.country_code s.name ++ "-" ++ String.mk ((md5hex s.url).toList.take 8)) ∧
    (∀ cc name : String,
      (∀ c ∈ (stationSlug cc name).toList,
        ('a' ≤ c ∧ c ≤ 'z') ∨ ('0' ≤ c ∧ c ≤ '9') ∨ c = '-') ∧
      List.Chain' (fun a b => ¬(a = '-' ∧ b = '-')) (stationSlug cc name).toList ∧
      (∀ c, (stationSlug cc name).toList.head? = some c → c ≠ '-') ∧
      (∀ c, (stationSlug cc name).toList.getLast? = some c → c ≠ '-')) := by
  refine ⟨?_, fun s => rfl, fun cc name => ?_⟩
  · intro s t h1 h2 h3
    simp [generate_station_id, stationSlug, h1, h2, h3]
  · have e : (stationSlug cc name).toList =
        stripHyphens (collapseHyphens (cleanChars
          (strLower cc ++ "-" ++ strLower name).toList)) := rfl
    rw [e]
    exact ⟨fun c hc => mem_cleanChars
        (collapseHyphens_subset _ c (stripHyphens_subset _ c hc)),
      stripHyphens_chain _ (collapseHyphens_chain _),
      fun c hc => stripHyphens_head?_ne _ c hc,
      fun c hc => stripHyphens_getLast?_ne _ c hc⟩

/-- C3 witness: two stations differing everywhere except
`(countryCode, name, url)` get the same id. -/
theorem C3_witness : generate_station_id wsA = generate_station_id wsB :=
  C3_station_id_pure.1 wsA wsB rfl rfl rfl

/-! ### Helper lemmas about the parser's line dispatch -/

/-- `isPrefixOf` is the existence of a completing tail. -/
theorem isPrefixOf_iff_append :
    ∀ (p l : List Char), p.isPrefixOf l = true ↔ ∃ t, l = p ++ t
  | [], l => by simp [List.isPrefixOf]
  | a :: as, [] => by simp [List.isPrefixOf]
  | a :: as, b :: bs => by
    simp only [List.isPrefixOf, Bool.and_eq_true, beq_iff_eq]
    constructor
    · rintro ⟨rfl, h⟩
      obtain ⟨t, rfl⟩ := (isPrefixOf_iff_append as bs).mp h
      exact ⟨t, rfl⟩
    · rintro ⟨t, ht⟩
      rw [List.cons_append, List.cons.injEq] at ht
      exact ⟨ht.1.symm, (isPrefixOf_iff_append as bs).mpr ⟨t, ht.2⟩⟩

/-- A line tagged `#EXTINF:` is not blank, not a `//` comment and not the
`#EXTM3U` header. -/
theorem extinf_line_not_skipped {line : List Char}
    (he : litExtinfTag.isPrefixOf line = true) :
    ¬(line = [] ∨ litSlashes.isPrefixOf line = true ∨
      litExtM3U.isPrefixOf line = true) := by
  obtain ⟨t, rfl⟩ := (isPrefixOf_iff_append _ _).mp he
  intro h
  rcases h with h | h | h
  · exact absurd h (by simp [litExtinfTag])
  · exact absurd h (by rw [show litSlashes.isPrefixOf (litExtinfTag ++ t) = false from rfl]; simp)
  · exact absurd h (by rw [show litExtM3U.isPrefixOf (litExtinfTag ++ t) = false from rfl]; simp)

/-- An `http(s)://` line is not blank, not a comment, not the header and
not an `#EXTINF:` line. -/
theorem http_line_not_skipped {line : List Char}
    (hu : isHttpLine line = true) :
    ¬(line = [] ∨ litSlashes.isPrefixOf line = true ∨
        litExtM3U.isPrefixOf line = true) ∧
    litExtinfTag.isPrefixOf line = false := by
  rw [isHttpLine, Bool.or_eq_true] at hu
  rcases hu with hu | hu
  · obtain ⟨t, rfl⟩ := (isPrefixOf_iff_append _ _).mp hu
    refine ⟨?_, rfl⟩
    intro h
    rcases h with h | h | h
    · exact absurd h (by simp [litHttp])
    · exact absurd h (by rw [show litSlashes.isPrefixOf (litHttp ++ t) = false from rfl]; simp)
    · exact absurd h (by rw [show litExtM3U.isPrefixOf (litHttp ++ t) = false from rfl]; simp)
  · obtain ⟨t, rfl⟩ := (isPrefixOf_iff_append _ _).mp hu
    refine ⟨?_, rfl⟩
    intro h
    rcases h with h | h | h
    · exact absurd h (by simp [litHttps])
    · exact absurd h (by rw [show litSlashes.isPrefixOf (litHttps ++ t) = false from rfl]; simp)
    · exact absurd h (by rw [show litExtM3U.isPrefixOf (litHttps ++ t) = false from rfl]; simp)

/-- Parser step on an `#EXTINF:` line: the `current_station` is replaced
when the pattern matches and kept when it does not. -/
theorem parseLoop_extinf (fmt : String → String × Nat) (ebr : String → Nat)
    (cc c : String) (lang : List String) (l : List Char)
    (ls : List (List Char)) (cur : Option PendingStation)
    (he : litExtinfTag.isPrefixOf (trimChars l) = true) :
    parseLoop fmt ebr cc c lang (l :: ls) cur =
      match extinfSearch (trimChars l) with
      | some (g1, g2, g3) =>
        parseLoop fmt ebr cc c lang ls
          (some { name := String.mk (trimChars g3), logo := String.mk g1,
                  genres := (splitSemi g2).map fun g => String.mk (trimChars g) })
      | none => parseLoop fmt ebr cc c lang ls cur := by
  simp only [parseLoop]
  rw [if_neg (extinf_line_not_skipped he), if_pos he]

/-- Parser step on an `http(s)://` line with a pending station: the station
is completed and emitted. -/
theorem parseLoop_url_some (fmt : String → String × Nat) (ebr : String → Nat)
    (cc c : String) (lang : List String) (l : List Char)
    (ls : List (List Char)) (p : PendingStation)
    (hu : isHttpLine (trimChars l) = true) :
    parseLoop fmt ebr cc c lang (l :: ls) (some p) =
      mkStation fmt ebr cc c lang p (String.mk (trimChars l)) ::
        parseLoop fmt ebr cc c lang ls none := by
  simp only [parseLoop]
  rw [if_neg (http_line_not_skipped hu).1, if_neg (by rw [(http_line_not_skipped hu).2]; simp)]
  rw [if_pos hu]

/-- A playlist with no `http(s)://` line yields no station at all,
whatever metadata state is pending. -/
theorem parseLoop_no_url (fmt : String → String × Nat) (ebr : String → Nat)
    (cc c : String) (lang : List String) :
    ∀ (lines : List (List Char)) (cur : Option PendingStation),
      (∀ l ∈ lines, isHttpLine (trimChars l) = false) →
      parseLoop fmt ebr cc c lang lines cur = []
  | [], _, _ => rfl
  | l :: ls, cur, h => by
    have hl : isHttpLine (trimChars l) = false := h l (List.mem_cons_self l ls)
    have ih : ∀ cur', parseLoop fmt ebr cc c lang ls cur' = [] := fun cur' =>
      parseLoop_no_url fmt ebr cc c lang ls cur'
        (fun x hx => h x (List.mem_cons_of_mem l hx))
    simp only [parseLoop, hl]
    split
    · exact ih cur
    · split
      · split
        · exact ih _
        · exact ih cur
      · cases cur with
        | none => exact ih none
        | some p => simp [ih]

/-! ### C4: well-formed (EXTINF, URL) pairs -/

/-- C4: a well-formed EXTINF line (tagged, pattern-matching, with a
non-blank display name) followed by an `http(s)://` line yields exactly one
entry, carrying that name and that url, both non-empty; and a playlist with
no URL line yields no entry at all. -/
theorem C4_wellformed_pair (fmt : String → String × Nat) (ebr : String → Nat)
    (cc c : String) (lang : List String) (e u g1 g2 g3 : List Char)
    (he : litExtinfTag.isPrefixOf (trimChars e) = true)
    (hm : extinfSearch (trimChars e) = some (g1, g2, g3))
    (hn : trimChars g3 ≠ [])
    (hu : isHttpLine (trimChars u) = true) :
    ((parse_m3u_file fmt ebr cc c lang [e, u]).map fun s => (s.name, s.url)) =
      [(String.mk (trimChars g3), String.mk (trimChars u))] ∧
    (∀ s ∈ parse_m3u_file fmt ebr cc c lang [e, u], s.name ≠ "" ∧ s.url ≠ "") ∧
    (∀ lines, (∀ l ∈ lines, isHttpLine (trimChars l) = false) →
      parse_m3u_file fmt ebr cc c lang lines = []) := by
  have hparse : parse_m3u_file fmt ebr cc c lang [e, u] =
      [mkStation fmt ebr (strUpper cc) c lang
        { name := String.mk (trimChars g3), logo := String.mk g1,
          genres := (splitSemi g2).map fun g => String.mk (trimChars g) }
        (String.mk (trimChars u))] := by
    unfold parse_m3u_file
    rw [parseLoop_extinf fmt ebr (strUpper cc) c lang e [u] none he, hm]
    show parseLoop fmt ebr (strUpper cc) c lang [u]
        (some { name := String.mk (trimChars g3), logo := String.mk g1,
                genres := (splitSemi g2).map fun g => String.mk (trimChars g) }) = _
    rw [parseLoop_url_some fmt ebr (strUpper cc) c lang u [] _ hu]
    rfl
  have hmknil : ∀ (X : List Char), String.mk X ≠ "" ↔ X ≠ [] := by
    intro X
    constructor
    · intro hne hX; exact hne (by rw [hX])
    · intro hne hX; exact hne (congrArg String.toList hX)
  refine ⟨by rw [hparse]; rfl, ?_, ?_⟩
  · intro s hs
    rw [hparse, List.mem_singleton] at hs
    subst hs
    constructor
    · exact (hmknil _).mpr hn
    · refine (hmknil _).mpr ?_
      rw [isHttpLine, Bool.or_eq_true] at hu
      rcases hu with hu | hu <;>
        obtain ⟨t, ht⟩ := (isPrefixOf_iff_append _ _).mp hu <;> simp [ht, litHttp, litHttps]
  · intro lines hl
    exact parseLoop_no_url fmt ebr (strUpper cc) c lang lines none hl

/-- C4 witness: the concrete pair (`#EXTINF:-1 tvg-logo="" group-title="",Name`,
`http://x/s`) yields exactly the one entry ("Name", "http://x/s"). -/
theorem C4_witness :
    ((parse_m3u_file fmt0 ebr0 "xx" "X" [] [emptyGenreLine, exUrlLine]).map
      fun s => (s.name, s.url)) = [("Name", "http://x/s")] :=
  (C4_wellformed_pair fmt0 ebr0 "xx" "X" [] emptyGenreLine exUrlLine
    [] [] "Name".toList rfl rfl (by decide) rfl).1

/-! ### C10: genre lists are never empty -/

/-- `str.split(';')` always returns at least one piece. -/
theorem splitSemi_ne_nil : ∀ l : List Char, splitSemi l ≠ []
  | [] => by simp [splitSemi]
  | c :: cs => by
    by_cases hc : c = ';'
    · simp [splitSemi, hc]
    · simp only [splitSemi, if_neg hc]
      cases h : splitSemi cs <;> simp

/-- Every station the parser emits has a non-empty genre list, whatever the
pending state, provided the pending state itself has non-empty genres. -/
theorem parseLoop_genres_ne_nil (fmt : String → String × Nat)
    (ebr : String → Nat) (cc c : String) (lang : List String) :
    ∀ (lines : List (List Char)) (cur : Option PendingStation),
      (∀ p, cur = some p → p.genres ≠ []) →
      ∀ s ∈ parseLoop fmt ebr cc c lang lines cur, s.genres ≠ []
  | [], _, _ => by simp [parseLoop]
  | l :: ls, cur, hcur => by
    intro s hs
    simp only [parseLoop] at hs
    split at hs
    · exact parseLoop_genres_ne_nil fmt ebr cc c lang ls cur hcur s hs
    · split at hs
      · split at hs
        · refine parseLoop_genres_ne_nil fmt ebr cc c lang ls _ ?_ s hs
          intro p hp
          rw [Option.some.injEq] at hp
          subst hp
          simp only [ne_eq, List.map_eq_nil_iff]
          exact splitSemi_ne_nil _
        · exact parseLoop_genres_ne_nil fmt ebr cc c lang ls cur hcur s hs
      · split at hs
        · rename_i p
          split at hs
          · rw [List.mem_cons] at hs
            rcases hs with rfl | hs
            · exact hcur p rfl
            · exact parseLoop_genres_ne_nil fmt ebr cc c lang ls none (by simp) s hs
          · exact parseLoop_genres_ne_nil fmt ebr cc c lang ls (some p) hcur s hs
        · exact parseLoop_genres_ne_nil fmt ebr cc c lang ls none (by simp) s hs

/-- C10: parsed genre lists are never empty — an empty `group-title`
yields the one-element list `[""]`, the catalog entry's tags become `[""]`,
and the genre analyzer counts `""` as a distinct genre. -/
theorem C10_empty_genre :
    (∀ (fmt : String → String × Nat) (ebr : String → Nat) (cc c : String)
      (lang : List String) (lines : List (List Char)) (s : RawStation),
      s ∈ parse_m3u_file fmt ebr cc c lang lines → s.genres ≠ []) ∧
    ((parse_m3u_file fmt0 ebr0 "xx" "X" [] [emptyGenreLine, exUrlLine]).map
      fun s => s.genres) = [[""]] ∧
    ((generate_metadata_catalog "T"
        (parse_m3u_file fmt0 ebr0 "xx" "X" [] [emptyGenreLine, exUrlLine])
        vNone).stations.map fun e => e.tags) = [[""]] ∧
    analyze_genres (parse_m3u_file fmt0 ebr0 "xx" "X" [] [emptyGenreLine, exUrlLine]) =
      { total_unique_genres := 1, top_genres := [("", 1)] } := by
  refine ⟨?_, rfl, rfl, rfl⟩
  intro fmt ebr cc c lang lines s hs
  exact parseLoop_genres_ne_nil fmt ebr (strUpper cc) c lang lines none (by simp) s hs

/-- C10 witness: the station parsed from the empty `group-title` line has
the non-empty genre list `[""]`. -/
theorem C10_witness : emptyGenreStation.genres ≠ [] :=
  C10_empty_genre.1 fmt0 ebr0 "xx" "X" [] [emptyGenreLine, exUrlLine]
    emptyGenreStation
    (by rw [show parse_m3u_file fmt0 ebr0 "xx" "X" [] [emptyGenreLine, exUrlLine] =
          [emptyGenreStation] from rfl]
        exact List.mem_singleton_self _)

/-- Rounding the rational zero yields zero. -/
theorem pyRound_zero (d : Nat) : pyRound d 0 = 0 := by
  norm_num [pyRound]

/-- C2: for every station entry and validation mapping, the aggregator's
catalog entry carries reliability 0.95 when the url is recorded `"ok"`,
0.3 when it is recorded with any other status, and 0.5 when it is absent
from the mapping. -/
theorem C2_reliability_mapping (now : String) (stations : List RawStation)
    (v : String → Option String) (s : RawStation) (hs : s ∈ stations) :
    catalogEntry now v s ∈ (generate_metadata_catalog now stations v).stations ∧
    (v s.url = some "ok" →
      (catalogEntry now v s).streams.map StreamRec.reliability = [0.95]) ∧
    (∀ st, v s.url = some st → st ≠ "ok" →
      (catalogEntry now v s).streams.map StreamRec.reliability = [0.3]) ∧
    (v s.url = none →
      (catalogEntry now v s).streams.map StreamRec.reliability = [0.5]) := by
  refine ⟨List.mem_map_of_mem _ hs, fun h => ?_, fun st h hne => ?_, fun h => ?_⟩
  · simp [catalogEntry, h]
  · simp [catalogEntry, h, hne]
  · simp [catalogEntry, h]

/-- C2 witness: a station whose url is validated `"ok"` gets reliability
0.95 in the generated catalog. -/
theorem C2_witness :
    catalogEntry "T" wVal wStation ∈
      (generate_metadata_catalog "T" [wStation] wVal).stations ∧
    (catalogEntry "T" wVal wStation).streams.map StreamRec.reliability = [0.95] :=
  ⟨(C2_reliability_mapping "T" [wStation] wVal wStation (by decide)).1,
   (C2_reliability_mapping "T" [wStation] wVal wStation (by decide)).2.1 (by decide)⟩

/-- C5: the validator classifies `working` exactly as final status in
`[200, 400)`, and each transport exception yields `working = false`,
`status = 0` and its specific error tag. -/
theorem C5_working_classification (now : String) (head : HeadOutcome)
    (get : GetOutcome) (info : StreamInfo) (h : info.url ≠ "") :
    ((check_stream now head get info).1.working = true ↔
      200 ≤ (check_stream now head get info).1.status ∧
        (check_stream now head get info).1.status < 400) ∧
    (head = HeadOutcome.timeout →
      (check_stream now head get info).1.working = false ∧
      (check_stream now head get info).1.status = 0 ∧
      (check_stream now head get info).1.error = some "Timeout") ∧
    (head = HeadOutcome.connError →
      (check_stream now head get info).1.working = false ∧
      (check_stream now head get info).1.status = 0 ∧
      (check_stream now head get info).1.error = some "Connection error") ∧
    (∀ m, head = HeadOutcome.otherError m →
      (check_stream now head get info).1.working = false ∧
      (check_stream now head get info).1.status = 0 ∧
      (check_stream now head get info).1.error = some m) := by
  cases head <;> simp [check_stream, h]

/-- C5 witness: a timeout on a concrete url is classified `working = false`,
`status = 0`, error `"Timeout"`. -/
theorem C5_witness :
    (check_stream "T" HeadOutcome.timeout GetOutcome.raiseBeforeResponse
        ⟨"http://u", "i", "n"⟩).1.working = false ∧
    (check_stream "T" HeadOutcome.timeout GetOutcome.raiseBeforeResponse
        ⟨"http://u", "i", "n"⟩).1.status = 0 ∧
    (check_stream "T" HeadOutcome.timeout GetOutcome.raiseBeforeResponse
        ⟨"http://u", "i", "n"⟩).1.error = some "Timeout" :=
  (C5_working_classification "T" HeadOutcome.timeout GetOutcome.raiseBeforeResponse
    ⟨"http://u", "i", "n"⟩ (by decide)).2.1 rfl

/-- C6 counterexample: the initial probe returns 404, the fallback GET
returns a 200 response whose first chunk then fails to read.  The fallback
raised a failure, yet the recorded status is the fallback response's 200
(and `working` flips to true) — not the original probe's 404 result. -/
theorem C6_counterexample :
    (check_stream "t" (HeadOutcome.resp 404 1) (GetOutcome.respThenReadFails 200)
        ⟨"http://u", "i", "n"⟩).2 = true ∧
    (check_stream "t" (HeadOutcome.resp 404 1) (GetOutcome.respThenReadFails 200)
        ⟨"http://u", "i", "n"⟩).1.status = 200 ∧
    ¬ (check_stream "t" (HeadOutcome.resp 404 1) (GetOutcome.respThenReadFails 200)
        ⟨"http://u", "i", "n"⟩).1.status = 404 ∧
    (check_stream "t" (HeadOutcome.resp 404 1) (GetOutcome.respThenReadFails 200)
        ⟨"http://u", "i", "n"⟩).1.working = true := by
  decide

/-- C6 amended: the fallback is attempted exactly once and only when the
probe status is in `[400, 500)`; if the fallback request raises before a
response exists, the original probe's status and latency are kept; if it
returns a response whose first chunk fails to read, that response's status
is recorded while the original probe's latency is kept. -/
theorem C6_fallback_amended (now : String) (head : HeadOutcome)
    (get : GetOutcome) (info : StreamInfo) (h : info.url ≠ "") :
    ((check_stream now head get info).2 = true ↔
      ∃ s l, head = HeadOutcome.resp s l ∧ 400 ≤ s ∧ s < 500) ∧
    (∀ s l, head = HeadOutcome.resp s l → 400 ≤ s → s < 500 →
      (get = GetOutcome.raiseBeforeResponse →
        (check_stream now head get info).1.status = s ∧
        (check_stream now head get info).1.latency = some (pyRound 2 l)) ∧
      (∀ s2, get = GetOutcome.respThenReadFails s2 →
        (check_stream now head get info).1.status = s2 ∧
        (check_stream now head get info).1.latency = some (pyRound 2 l))) := by
  constructor
  · cases head <;> simp [check_stream, h, fallbackStep]
    case resp s l =>
      by_cases hc : 400 ≤ s ∧ s < 500
      · cases get <;> simp [hc.1, hc.2, hc]
      · cases get <;> simp [hc]
  · intro s l hh h4 h5
    subst hh
    constructor
    · intro hg; subst hg
      simp [check_stream, h, fallbackStep, h4, h5]
    · intro s2 hg; subst hg
      simp [check_stream, h, fallbackStep, h4, h5]

/-- C6 witness: for a 404 probe, a fallback that raises before any response
keeps the original status 404 and latency. -/
theorem C6_witness :
    (check_stream "T" (HeadOutcome.resp 404 1) GetOutcome.raiseBeforeResponse
        ⟨"http://u", "i", "n"⟩).1.status = 404 ∧
    (check_stream "T" (HeadOutcome.resp 404 1) GetOutcome.raiseBeforeResponse
        ⟨"http://u", "i", "n"⟩).1.latency = some (pyRound 2 1) :=
  ((C6_fallback_amended "T" (HeadOutcome.resp 404 1) GetOutcome.raiseBeforeResponse
      ⟨"http://u", "i", "n"⟩ (by decide)).2 404 1 rfl (by decide) (by decide)).1 rfl

/-- C7 counterexample: with 1 of 3 streams working, the stored
`success_rate` is `round(1/3, 4) = 0.3333`, which is not `working/total`. -/
theorem C7_counterexample :
    (aggregateResults "T" cexChecks).total > 0 ∧
    (aggregateResults "T" cexChecks).success_rate ≠
      ((aggregateResults "T" cexChecks).working : ℚ) /
        ((aggregateResults "T" cexChecks).total : ℚ) := by
  refine ⟨by decide, ?_⟩
  have e1 : (aggregateResults "T" cexChecks).success_rate = pyRound 4 ((1 : ℚ) / 3) := rfl
  have e2 : ((aggregateResults "T" cexChecks).working : ℚ) = 1 := rfl
  have e3 : ((aggregateResults "T" cexChecks).total : ℚ) = 3 := rfl
  rw [e1, e2, e3]
  norm_num [pyRound]

/-- C7 amended: the stored success rate is `working/total` rounded to four
decimal places when `total > 0`, and `0` when `total = 0`; no division by
zero occurs. -/
theorem C7_success_rate_amended (now : String) (rs : List CheckResult) :
    ((aggregateResults now rs).total > 0 →
      (aggregateResults now rs).success_rate =
        pyRound 4 (((aggregateResults now rs).working : ℚ) /
          ((aggregateResults now rs).total : ℚ))) ∧
    ((aggregateResults now rs).total = 0 →
      (aggregateResults now rs).success_rate = 0) := by
  constructor
  · intro h
    simp only [aggregateResults] at h ⊢
    rw [if_pos h]
  · intro h
    simp only [aggregateResults] at h ⊢
    rw [if_neg (by omega), pyRound_zero]

/-- C7 witness: the amended statement applied to the three concrete checks. -/
theorem C7_witness :
    (aggregateResults "T" cexChecks).success_rate =
      pyRound 4 (((aggregateResults "T" cexChecks).working : ℚ) /
        ((aggregateResults "T" cexChecks).total : ℚ)) :=
  (C7_success_rate_amended "T" cexChecks).1 (by decide)

/-- C8: when the catalog is missing, the validator writes no results file —
but the process exits with code 0 (main simply returns), not the non-zero
exit code the specification requires. -/
theorem C8_missing_catalog_exit (now : String) (heads : String → HeadOutcome)
    (gets : String → GetOutcome) :
    validator_main now none heads gets = (0, none) := rfl

/-- C9 counterexample: the aggregator's output embeds the current clock
reading, so two runs on identical inputs at different times produce
different catalogs. -/
theorem C9_counterexample :
    generate_metadata_catalog "2024-01-01T00:00:00Z" [] vNone ≠
      generate_metadata_catalog "2024-01-02T00:00:00Z" [] vNone := by
  decide

/-- C9 amended: given its two inputs, the aggregator is deterministic up to
the clock reading — catalogs from two runs agree on everything outside the
`updated` and `lastChecked` timestamp fields. -/
theorem C9_deterministic_amended (now1 now2 : String)
    (stations : List RawStation) (v : String → Option String) :
    eraseTimes (generate_metadata_catalog now1 stations v) =
      eraseTimes (generate_metadata_catalog now2 stations v) := by
  simp only [eraseTimes, generate_metadata_catalog, List.map_map, Catalog.mk.injEq,
    true_and]
  exact List.map_congr_left fun s _ => rfl

/-! ### C1: the round trip through the unified playlist -/

/-- C1 counterexample: the parser produces a station with genres
`["Jazz", "Pop"]` from `group-title="Jazz;Pop"`; the unified emitter writes
`group-title="Jazz,Pop"` (comma join), and re-parsing splits on `;`,
yielding the single genre `"Jazz,Pop"` — the set of `(name, url, genres)`
tuples is not reproduced, even modulo the canonical `;` separator. -/
theorem C1_counterexample :
    ¬ RoundTripClaim fmt0 ebr0 "fr" "France" ["French"] cexStations := by
  unfold RoundTripClaim
  decide

/-! ### Lemmas on the EXTINF matcher over emitted lines -/

/-- `splitAtQuote` splits exactly at an explicit quote. -/
theorem splitAtQuote_append :
    ∀ (a b : List Char), '"' ∉ a → splitAtQuote (a ++ '"' :: b) = some (a, b)
  | [], b, _ => by simp [splitAtQuote]
  | c :: a, b, h => by
    rw [List.mem_cons, not_or] at h
    rw [List.cons_append, splitAtQuote, if_neg (Ne.symm h.1),
      splitAtQuote_append a b h.2]

/-- `splitAtQuote` fails on quote-free input. -/
theorem splitAtQuote_none : ∀ a : List Char, '"' ∉ a → splitAtQuote a = none
  | [], _ => rfl
  | c :: a, h => by
    rw [List.mem_cons, not_or] at h
    rw [splitAtQuote, if_neg (Ne.symm h.1), splitAtQuote_none a h.2]

/-- The quote-free part of the `group-title="` literal. -/
def litGT12 : List Char := ['g', 'r', 'o', 'u', 'p', '-', 't', 'i', 't', 'l', 'e', '=']

/-- `matchGT` fails on quote-free input. -/
theorem matchGT_no_quote {l : List Char} (h : '"' ∉ l) : matchGT l = none := by
  rw [matchGT]
  cases hp : litGroupTitle.isPrefixOf l with
  | false => simp
  | true =>
    obtain ⟨t, rfl⟩ := (isPrefixOf_iff_append _ _).mp hp
    exact absurd (by simp [litGroupTitle] : '"' ∈ litGroupTitle ++ t) h

/-- `matchGT` fails unless the list starts with `g`. -/
theorem matchGT_head_ne {c : Char} (l : List Char) (h : c ≠ 'g') :
    matchGT (c :: l) = none := by
  rw [matchGT, if_neg]
  intro hp
  obtain ⟨t, ht⟩ := (isPrefixOf_iff_append _ _).mp hp
  rw [show litGroupTitle ++ t = 'g' :: (litGT12.tail ++ '"' :: t) from rfl,
    List.cons.injEq] at ht
  exact h ht.1

/-- If a quote-free block is followed by a quote and the `group-title="`
literal is a prefix, the block is exactly `group-title=`. -/
theorem quote_prefix_eq :
    ∀ (v u rest : List Char), '"' ∉ v → '"' ∉ u →
      (v ++ ['"']).isPrefixOf (u ++ '"' :: rest) = true → u = v
  | [], [], _, _, _, _ => rfl
  | [], c :: u, _, _, hu, hp => by
    rw [List.nil_append] at hp
    obtain ⟨t, ht⟩ := (isPrefixOf_iff_append _ _).mp hp
    simp only [List.cons_append, List.singleton_append, List.cons.injEq] at ht
    exact absurd (ht.1 ▸ List.mem_cons_self c u) hu
  | a :: v, [], rest, hv, _, hp => by
    rw [List.nil_append] at hp
    obtain ⟨t, ht⟩ := (isPrefixOf_iff_append _ _).mp hp
    simp only [List.cons_append, List.append_assoc, List.cons.injEq] at ht
    exact absurd (ht.1 ▸ List.mem_cons_self a v) hv
  | a :: v, b :: u, rest, hv, hu, hp => by
    rw [List.mem_cons, not_or] at hv hu
    obtain ⟨t, ht⟩ := (isPrefixOf_iff_append _ _).mp hp
    simp only [List.cons_append, List.append_assoc, List.cons.injEq] at ht
    rw [quote_prefix_eq v u rest hv.2 hu.2
      ((isPrefixOf_iff_append _ _).mpr ⟨t, by rw [ht.2]; simp⟩), ht.1]

/-- `matchGT` fails at a quote-free block followed by a quote unless that
block is exactly `group-title=`. -/
theorem matchGT_quote_breaks (u rest : List Char) (hu : '"' ∉ u)
    (hne : u ≠ litGT12) : matchGT (u ++ '"' :: rest) = none := by
  rw [matchGT, if_neg]
  intro hp
  exact hne (quote_prefix_eq litGT12 u rest (by decide) hu
    (by rw [show litGT12 ++ ['"'] = litGroupTitle from rfl]; exact hp))

/-- `matchGT` fails right after the literal when no quote follows. -/
theorem matchGT_tail_no_quote (rest : List Char) (h : '"' ∉ rest) :
    matchGT (litGroupTitle ++ rest) = none := by
  rw [matchGT, if_pos ((isPrefixOf_iff_append _ _).mpr ⟨rest, rfl⟩),
    List.drop_left, splitAtQuote_none rest h]

/-- `matchGT` succeeds at the emitted `group-title="..."` occurrence. -/
theorem matchGT_at (g2 name : List Char) (hq : '"' ∉ g2) :
    matchGT (litGroupTitle ++ (g2 ++ '"' :: ',' :: name)) = some (g2, name) := by
  rw [matchGT, if_pos ((isPrefixOf_iff_append _ _).mpr ⟨_, rfl⟩),
    List.drop_left, splitAtQuote_append g2 (',' :: name) hq]
  rfl

/-- A suffix of `A ++ B` either contains all of `B` after a suffix of `A`,
or is a suffix of `B`. -/
theorem suffix_append_cases {s : List Char} :
    ∀ A B : List Char, s <:+ A ++ B →
      (∃ u, u <:+ A ∧ s = u ++ B) ∨ s <:+ B
  | [], _, h => Or.inr (by simpa using h)
  | a :: A, B, h => by
    rw [List.cons_append, List.suffix_cons_iff] at h
    rcases h with rfl | h
    · exact Or.inl ⟨a :: A, List.suffix_refl _, by simp⟩
    · rcases suffix_append_cases A B h with ⟨u, hu, rfl⟩ | h2
      · exact Or.inl ⟨u, hu.trans (List.suffix_cons a A), rfl⟩
      · exact Or.inr h2

/-- If `matchGT` fails on every suffix, `searchLastGT` fails. -/
theorem searchLastGT_none :
    ∀ l : List Char, (∀ s, s <:+ l → matchGT s = none) → searchLastGT l = none
  | [], _ => rfl
  | c :: l, h => by
    rw [searchLastGT, searchLastGT_none l
      (fun s hs => h s (hs.trans (List.suffix_cons c l)))]
    exact h (c :: l) (List.suffix_refl _)

/-- If `matchGT` succeeds at the head and fails on every strict suffix,
`searchLastGT` returns the head match. -/
theorem searchLastGT_of_last {r : List Char × List Char} :
    ∀ l : List Char, matchGT l = some r →
      (∀ s, s <:+ l → s ≠ l → matchGT s = none) → searchLastGT l = some r
  | [], hm, _ => by rw [show matchGT [] = none from rfl] at hm; exact absurd hm (by simp)
  | c :: l, hm, h => by
    rw [searchLastGT, searchLastGT_none l fun s hs => by
      refine h s (hs.trans (List.suffix_cons c l)) ?_
      intro hcontra
      subst hcontra
      exact absurd (List.Sublist.length_le hs.sublist) (by simp), hm]

/-- No strict suffix of the emitted `group-title` region matches. -/
theorem emit_no_late_gt {gj name : List Char} (hg : '"' ∉ gj) (hn : '"' ∉ name) :
    ∀ s, s <:+ litGroupTitle ++ (gj ++ '"' :: ',' :: name) →
      s ≠ litGroupTitle ++ (gj ++ '"' :: ',' :: name) → matchGT s = none := by
  intro s hs hne
  have hshape : s <:+ litGT12 ++ ('"' :: (gj ++ '"' :: ',' :: name)) := by
    simpa [litGroupTitle, litGT12] using hs
  rcases suffix_append_cases litGT12 _ hshape with ⟨u, hu, rfl⟩ | h2
  · have huq : '"' ∉ u := fun hc => by
      have := hu.sublist.subset hc
      simp [litGT12] at this
    have hune : u ≠ litGT12 := by
      intro hcontra
      subst hcontra
      exact hne (by simp [litGroupTitle, litGT12])
    exact matchGT_quote_breaks u _ huq hune
  · rw [List.suffix_cons_iff] at h2
    rcases h2 with rfl | h3
    · exact matchGT_head_ne _ (by decide)
    · rcases suffix_append_cases gj _ h3 with ⟨u, hu, rfl⟩ | h4
      · have huq : '"' ∉ u := fun hc => hg (hu.sublist.subset hc)
        by_cases hul : u = litGT12
        · subst hul
          rw [show litGT12 ++ '"' :: ',' :: name = litGroupTitle ++ (',' :: name) by
            simp [litGroupTitle, litGT12]]
          exact matchGT_tail_no_quote (',' :: name) (by simp [hn])
        · exact matchGT_quote_breaks u _ huq hul
      · rw [List.suffix_cons_iff] at h4
        rcases h4 with rfl | h5
        · exact matchGT_head_ne _ (by decide)
        · refine matchGT_no_quote fun hc => ?_
          have := h5.sublist.subset hc
          rw [List.mem_cons] at this
          rcases this with h6 | h6
          · exact absurd h6 (by decide)
          · exact hn h6

/-- `searchLastGT` over the emitted remainder returns the emitted
group-title and name. -/
theorem searchLastGT_emit {gj name : List Char} (hg : '"' ∉ gj) (hn : '"' ∉ name) :
    searchLastGT (' ' :: (litGroupTitle ++ (gj ++ '"' :: ',' :: name))) =
      some (gj, name) := by
  rw [searchLastGT,
    searchLastGT_of_last _ (matchGT_at gj name hg) (emit_no_late_gt hg hn)]

/-- `matchFrom` fails unless the list starts with `t`. -/
theorem matchFrom_head_ne {c : Char} (l : List Char) (h : c ≠ 't') :
    matchFrom (c :: l) = none := by
  rw [matchFrom, if_neg]
  intro hp
  obtain ⟨t, ht⟩ := (isPrefixOf_iff_append _ _).mp hp
  rw [show litTvgLogo ++ t = 't' :: (litTvgLogo.tail ++ t) from rfl,
    List.cons.injEq] at ht
  exact h ht.1

/-- `extinfSearch` skips a character that cannot start the pattern. -/
theorem extinfSearch_cons_ne {c : Char} (l : List Char) (h : c ≠ 't') :
    extinfSearch (c :: l) = extinfSearch l := by
  rw [extinfSearch, matchFrom_head_ne l h]

/-- `matchFrom` succeeds at the emitted `tvg-logo="` occurrence. -/
theorem matchFrom_emit {logo gj name : List Char} (hl : '"' ∉ logo)
    (hg : '"' ∉ gj) (hn : '"' ∉ name) :
    matchFrom (litTvgLogo ++
        (logo ++ '"' :: ' ' :: (litGroupTitle ++ (gj ++ '"' :: ',' :: name)))) =
      some (logo, gj, name) := by
  rw [matchFrom, if_pos ((isPrefixOf_iff_append _ _).mpr ⟨_, rfl⟩),
    List.drop_left, splitAtQuote_append logo _ hl]
  show (match searchLastGT (' ' :: (litGroupTitle ++ (gj ++ '"' :: ',' :: name))) with
        | some (g2, g3) => some (logo, g2, g3)
        | none => none) = some (logo, gj, name)
  rw [searchLastGT_emit hg hn]

/-- `extinfSearch` on the emitted EXTINF line finds exactly the emitted
logo, joined genres and name. -/
theorem extinfSearch_emit {logo gj name : List Char} (hl : '"' ∉ logo)
    (hg : '"' ∉ gj) (hn : '"' ∉ name) :
    extinfSearch (extinfPrefix ++ litTvgLogo ++ logo ++ ['"', ' '] ++
        litGroupTitle ++ gj ++ ['"', ','] ++ name) = some (logo, gj, name) := by
  have e : extinfPrefix ++ litTvgLogo ++ logo ++ ['"', ' '] ++
        litGroupTitle ++ gj ++ ['"', ','] ++ name =
      '#' :: 'E' :: 'X' :: 'T' :: 'I' :: 'N' :: 'F' :: ':' :: '-' :: '1' :: ' ' ::
        (litTvgLogo ++
          (logo ++ '"' :: ' ' :: (litGroupTitle ++ (gj ++ '"' :: ',' :: name)))) := by
    simp [extinfPrefix]
  rw [e, extinfSearch_cons_ne _ (by decide), extinfSearch_cons_ne _ (by decide),
    extinfSearch_cons_ne _ (by decide), extinfSearch_cons_ne _ (by decide),
    extinfSearch_cons_ne _ (by decide), extinfSearch_cons_ne _ (by decide),
    extinfSearch_cons_ne _ (by decide), extinfSearch_cons_ne _ (by decide),
    extinfSearch_cons_ne _ (by decide), extinfSearch_cons_ne _ (by decide),
    extinfSearch_cons_ne _ (by decide)]
  rw [show litTvgLogo ++
      (logo ++ '"' :: ' ' :: (litGroupTitle ++ (gj ++ '"' :: ',' :: name))) =
    't' :: ('v' :: 'g' :: '-' :: 'l' :: 'o' :: 'g' :: 'o' :: '=' :: '"' ::
      (logo ++ '"' :: ' ' :: (litGroupTitle ++ (gj ++ '"' :: ',' :: name)))) from rfl]
  rw [extinfSearch, show ('t' :: ('v' :: 'g' :: '-' :: 'l' :: 'o' :: 'g' :: 'o' :: '=' :: '"' ::
      (logo ++ '"' :: ' ' :: (litGroupTitle ++ (gj ++ '"' :: ',' :: name))))) =
    litTvgLogo ++
      (logo ++ '"' :: ' ' :: (litGroupTitle ++ (gj ++ '"' :: ',' :: name))) from rfl,
    matchFrom_emit hl hg hn]

/-! ### Lemmas on stripping and joining -/

/-- Appending to a non-empty tail keeps its last element. -/
theorem getLast?_append_ne (a b : List Char) (hb : b ≠ []) :
    (a ++ b).getLast? = b.getLast? := by
  rw [List.getLast?_append]
  obtain ⟨x, hx⟩ := Option.isSome_iff_exists.mp (List.getLast?_isSome.mpr hb)
  rw [hx]
  rfl

/-- `dropWhile` is the identity when the head does not satisfy the
predicate. -/
theorem dropWhile_eq_self_of_head {α : Type} {p : α → Bool} (l : List α)
    (h : ∀ c, l.head? = some c → p c = false) : List.dropWhile p l = l := by
  cases l with
  | nil => rfl
  | cons a t =>
    exact List.dropWhile_cons_of_neg (by rw [h a rfl]; exact Bool.false_ne_true)

/-- A list whose first and last characters are not whitespace is unchanged
by `trimChars`. -/
theorem trimChars_eq_self (l : List Char)
    (h1 : ∀ c, l.head? = some c → c.isWhitespace = false)
    (h2 : ∀ c, l.getLast? = some c → c.isWhitespace = false) :
    trimChars l = l := by
  unfold trimChars
  rw [dropWhile_eq_self_of_head l h1,
    dropWhile_eq_self_of_head l.reverse (fun c hc => h2 c (by rwa [List.head?_reverse] at hc)),
    List.reverse_reverse]

/-- `dropWhile` of full length is the identity. -/
theorem dropWhile_length_eq_self {α : Type} {p : α → Bool} :
    ∀ l : List α, (List.dropWhile p l).length = l.length → List.dropWhile p l = l
  | [], _ => rfl
  | a :: t, h => by
    by_cases hp : p a
    · rw [List.dropWhile_cons_of_pos hp, List.length_cons] at h
      have := (List.dropWhile_sublist (p := p) (l := t)).length_le
      omega
    · exact List.dropWhile_cons_of_neg hp

/-- If `dropWhile` is the identity, the head does not satisfy the
predicate. -/
theorem dropWhile_eq_self_head {α : Type} {p : α → Bool} (m : List α)
    (hm : List.dropWhile p m = m) : ∀ c, m.head? = some c → p c = false := by
  intro c hc
  cases m with
  | nil => simp at hc
  | cons a t =>
    rw [List.head?_cons, Option.some.injEq] at hc
    by_cases hp : p a
    · rw [List.dropWhile_cons_of_pos hp] at hm
      have h1 := (List.dropWhile_sublist (p := p) (l := t)).length_le
      have h2 := congrArg List.length hm
      rw [List.length_cons] at h2
      omega
    · rw [← hc]
      exact Bool.eq_false_iff.mpr hp

/-- A `trimChars` fixpoint is a fixpoint of both one-sided trims. -/
theorem trimChars_parts (l : List Char) (h : trimChars l = l) :
    List.dropWhile Char.isWhitespace l = l ∧
    List.dropWhile Char.isWhitespace l.reverse = l.reverse := by
  have hlen1 : (trimChars l).length ≤ (List.dropWhile Char.isWhitespace l).length := by
    unfold trimChars
    rw [List.length_reverse]
    calc (List.dropWhile Char.isWhitespace
            (List.dropWhile Char.isWhitespace l).reverse).length
        ≤ (List.dropWhile Char.isWhitespace l).reverse.length :=
          (List.dropWhile_sublist (p := Char.isWhitespace)
            (l := (List.dropWhile Char.isWhitespace l).reverse)).length_le
      _ = (List.dropWhile Char.isWhitespace l).length := List.length_reverse _
  have hlen2 : (List.dropWhile Char.isWhitespace l).length ≤ l.length :=
    (List.dropWhile_sublist (p := Char.isWhitespace) (l := l)).length_le
  rw [h] at hlen1
  have hfix : List.dropWhile Char.isWhitespace l = l :=
    dropWhile_length_eq_self l (by omega)
  refine ⟨hfix, ?_⟩
  have : trimChars l = (List.dropWhile Char.isWhitespace l.reverse).reverse := by
    unfold trimChars
    rw [hfix]
  rw [h] at this
  have := congrArg List.reverse this
  rw [List.reverse_reverse] at this
  exact this.symm

/-- The head of a join of stripped pieces is not whitespace. -/
theorem join_head_nws (gs : List (List Char))
    (h : ∀ g ∈ gs, ∀ c, g.head? = some c → c.isWhitespace = false) :
    ∀ c, (joinChars [','] gs).head? = some c → c.isWhitespace = false := by
  intro c hc
  match gs with
  | [] => simp [joinChars] at hc
  | [g] => exact h g (by simp) c hc
  | g :: g2 :: t =>
    rw [show joinChars [','] (g :: g2 :: t) =
      g ++ ([','] ++ joinChars [','] (g2 :: t)) by simp [joinChars]] at hc
    cases g with
    | nil =>
      rw [List.nil_append, List.cons_append, List.head?_cons,
        Option.some.injEq] at hc
      rw [← hc]
      decide
    | cons a g' =>
      rw [List.cons_append, List.head?_cons, Option.some.injEq] at hc
      rw [← hc]
      exact h (a :: g') (by simp) a rfl

/-- The last character of a join of stripped pieces is not whitespace. -/
theorem join_getLast_nws :
    ∀ gs : List (List Char),
      (∀ g ∈ gs, ∀ c, g.getLast? = some c → c.isWhitespace = false) →
      ∀ c, (joinChars [','] gs).getLast? = some c → c.isWhitespace = false
  | [], _, c => by simp [joinChars]
  | [g], h, c => fun hc => h g (by simp) c hc
  | g :: g2 :: t, h, c => by
    intro hc
    rw [show joinChars [','] (g :: g2 :: t) =
      g ++ ([','] ++ joinChars [','] (g2 :: t)) by simp [joinChars]] at hc
    rw [getLast?_append_ne _ _ (by simp)] at hc
    by_cases hJ : joinChars [','] (g2 :: t) = []
    · rw [hJ] at hc
      simp at hc
      subst hc
      decide
    · rw [show ([','] ++ joinChars [','] (g2 :: t)) =
        [','] ++ joinChars [','] (g2 :: t) from rfl,
        getLast?_append_ne _ _ hJ] at hc
      exact join_getLast_nws (g2 :: t)
        (fun g hg => h g (List.mem_cons_of_mem _ hg)) c hc

/-- Membership in a comma join comes from a comma or from a piece. -/
theorem mem_joinChars :
    ∀ (gs : List (List Char)) (c : Char), c ∈ joinChars [','] gs →
      c = ',' ∨ ∃ g ∈ gs, c ∈ g
  | [], c => by simp [joinChars]
  | [g], c => fun hc => Or.inr ⟨g, by simp, hc⟩
  | g :: g2 :: t, c => by
    intro hc
    rw [show joinChars [','] (g :: g2 :: t) =
      g ++ ([','] ++ joinChars [','] (g2 :: t)) by simp [joinChars],
      List.mem_append, List.mem_append] at hc
    rcases hc with hc | hc | hc
    · exact Or.inr ⟨g, by simp, hc⟩
    · exact Or.inl (by simpa using hc)
    · rcases mem_joinChars (g2 :: t) c hc with h | ⟨g', hg', hcg⟩
      · exact Or.inl h
      · exact Or.inr ⟨g', List.mem_cons_of_mem _ hg', hcg⟩

/-- Splitting a semicolon-free list is the identity. -/
theorem splitSemi_no_semi : ∀ l : List Char, ';' ∉ l → splitSemi l = [l]
  | [], _ => rfl
  | c :: cs, h => by
    rw [List.mem_cons, not_or] at h
    rw [splitSemi, if_neg (Ne.symm h.1), splitSemi_no_semi cs h.2]

/-- A `trimChars` fixpoint has a non-whitespace head. -/
theorem trimmed_head_nws (l : List Char) (h : trimChars l = l) :
    ∀ c, l.head? = some c → c.isWhitespace = false :=
  dropWhile_eq_self_head l (trimChars_parts l h).1

/-- A `trimChars` fixpoint has a non-whitespace last character. -/
theorem trimmed_getLast_nws (l : List Char) (h : trimChars l = l) :
    ∀ c, l.getLast? = some c → c.isWhitespace = false := fun c hc =>
  dropWhile_eq_self_head l.reverse (trimChars_parts l h).2 c
    (by rwa [List.head?_reverse])

/-- Rebuilding a string from its characters is the identity. -/
theorem mk_toList (x : String) : String.mk x.toList = x := rfl

/-- One station's pair of emitted lines parses back to one completed
station: the name and url are reproduced exactly, and the genre list
becomes the single comma-join of the original genres. -/
theorem parse_emit_step (fmt : String → String × Nat) (ebr : String → Nat)
    (cc c : String) (lang : List String) (s : RawStation) (hs : EmitSafe s)
    (rest : List (List Char)) (cur : Option PendingStation) :
    parseLoop fmt ebr cc c lang (unifiedExtinfLine s :: s.url.toList :: rest) cur =
      mkStation fmt ebr cc c lang
        { name := s.name, logo := s.logo, genres := [joinedGenres s] } s.url ::
        parseLoop fmt ebr cc c lang rest none := by
  obtain ⟨hname, hnq, hlq, hgne, hgall, hutrim, hhttp⟩ := hs
  have hgj_head : ∀ c', (joinChars [','] (s.genres.map String.toList)).head? = some c' →
      c'.isWhitespace = false := by
    refine join_head_nws _ ?_
    intro g hg c' hc
    obtain ⟨g0, hg0, rfl⟩ := List.mem_map.mp hg
    exact trimmed_head_nws _ (hgall g0 hg0).1 c' hc
  have hgj_last : ∀ c', (joinChars [','] (s.genres.map String.toList)).getLast? = some c' →
      c'.isWhitespace = false := by
    refine join_getLast_nws _ ?_
    intro g hg c' hc
    obtain ⟨g0, hg0, rfl⟩ := List.mem_map.mp hg
    exact trimmed_getLast_nws _ (hgall g0 hg0).1 c' hc
  have hgjq : '"' ∉ joinChars [','] (s.genres.map String.toList) := by
    intro hc
    rcases mem_joinChars _ _ hc with h | ⟨g, hg, hcg⟩
    · exact absurd h (by decide)
    · obtain ⟨g0, hg0, rfl⟩ := List.mem_map.mp hg
      exact (hgall g0 hg0).2.1 hcg
  have hgjs : ';' ∉ joinChars [','] (s.genres.map String.toList) := by
    intro hc
    rcases mem_joinChars _ _ hc with h | ⟨g, hg, hcg⟩
    · exact absurd h (by decide)
    · obtain ⟨g0, hg0, rfl⟩ := List.mem_map.mp hg
      exact (hgall g0 hg0).2.2 hcg
  have htrim_line : trimChars (unifiedExtinfLine s) = unifiedExtinfLine s := by
    refine trimChars_eq_self _ ?_ ?_
    · intro c' hc
      rw [show (unifiedExtinfLine s).head? = some '#' from rfl,
        Option.some.injEq] at hc
      rw [← hc]
      decide
    · intro c' hc
      unfold unifiedExtinfLine at hc
      cases hn : s.name.toList with
      | nil =>
        rw [hn, List.append_nil, getLast?_append_ne _ _ (by simp),
          show (['"', ','] : List Char).getLast? = some ',' from rfl,
          Option.some.injEq] at hc
        rw [← hc]
        decide
      | cons a t =>
        rw [hn, getLast?_append_ne _ _ (by simp)] at hc
        rw [← hn] at hc
        exact trimmed_getLast_nws _ hname c' hc
  have hextinf_tag : litExtinfTag.isPrefixOf (trimChars (unifiedExtinfLine s)) = true := by
    rw [htrim_line]
    refine (isPrefixOf_iff_append _ _).mpr ⟨'-' :: '1' :: ' ' :: (litTvgLogo ++
      s.logo.toList ++ ['"', ' '] ++ litGroupTitle ++
      joinChars [','] (s.genres.map String.toList) ++ ['"', ','] ++ s.name.toList), ?_⟩
    simp [unifiedExtinfLine, extinfPrefix, litExtinfTag]
  have hsearch : extinfSearch (trimChars (unifiedExtinfLine s)) =
      some (s.logo.toList, joinChars [','] (s.genres.map String.toList),
        s.name.toList) := by
    rw [htrim_line]
    exact extinfSearch_emit hlq hgjq hnq
  rw [parseLoop_extinf fmt ebr cc c lang _ _ cur hextinf_tag, hsearch]
  show parseLoop fmt ebr cc c lang (s.url.toList :: rest)
      (some { name := String.mk (trimChars s.name.toList),
              logo := String.mk s.logo.toList,
              genres := (splitSemi (joinChars [','] (s.genres.map String.toList))).map
                fun g => String.mk (trimChars g) }) = _
  have hpend : (⟨String.mk (trimChars s.name.toList), String.mk s.logo.toList,
      (splitSemi (joinChars [','] (s.genres.map String.toList))).map
        fun g => String.mk (trimChars g)⟩ : PendingStation) =
      { name := s.name, logo := s.logo, genres := [joinedGenres s] } := by
    rw [PendingStation.mk.injEq]
    refine ⟨by rw [hname, mk_toList], mk_toList _, ?_⟩
    rw [splitSemi_no_semi _ hgjs, List.map_singleton,
      trimChars_eq_self _ hgj_head hgj_last]
    rfl
  rw [hpend]
  rw [parseLoop_url_some fmt ebr cc c lang s.url.toList rest _
    (by rw [hutrim]; exact hhttp)]
  rw [hutrim, mk_toList]

/-- Parsing all emitted line pairs yields the completed stations in
order. -/
theorem parse_emit_go (fmt : String → String × Nat) (ebr : String → Nat)
    (cc c : String) (lang : List String) :
    ∀ (stations : List RawStation) (cur : Option PendingStation),
      (∀ s ∈ stations, EmitSafe s) →
      parseLoop fmt ebr cc c lang
          ((stations.map fun s => [unifiedExtinfLine s, s.url.toList]).flatten) cur =
        stations.map fun s =>
          mkStation fmt ebr cc c lang
            { name := s.name, logo := s.logo, genres := [joinedGenres s] } s.url
  | [], _, _ => rfl
  | s :: ss, cur, h => by
    rw [show ((s :: ss).map fun s => [unifiedExtinfLine s, s.url.toList]).flatten =
      unifiedExtinfLine s :: s.url.toList ::
        ((ss.map fun s => [unifiedExtinfLine s, s.url.toList]).flatten) by simp]
    rw [parse_emit_step fmt ebr cc c lang s (h s (List.mem_cons_self s ss)) _ cur]
    rw [parse_emit_go fmt ebr cc c lang ss none
      (fun x hx => h x (List.mem_cons_of_mem _ hx))]
    rfl

/-- C1 amended: on well-formed stations, re-parsing the emitted unified
playlist reproduces every station's name and url exactly and in order, but
the genre list collapses to the single comma-join of the original genres
(the unified emitter joins with `,` while the parser splits on `;`); the
original genre lists are reproduced exactly when every station has exactly
one genre. -/
theorem C1_roundtrip_amended (fmt : String → String × Nat) (ebr : String → Nat)
    (cc c : String) (lang : List String) (stations : List RawStation)
    (h : ∀ s ∈ stations, EmitSafe s) :
    ((parse_m3u_file fmt ebr cc c lang (generate_unified_playlist stations)).map
        fun st => (st.name, st.url, st.genres)) =
      (stations.map fun s => (s.name, s.url, [joinedGenres s])) ∧
    ((∀ s ∈ stations, s.genres.length = 1) →
      ((parse_m3u_file fmt ebr cc c lang (generate_unified_playlist stations)).map
          fun st => (st.name, st.url, st.genres)) =
        stations.map fun s => (s.name, s.url, s.genres)) := by
  have hmain : parse_m3u_file fmt ebr cc c lang (generate_unified_playlist stations) =
      stations.map fun s =>
        mkStation fmt ebr (strUpper cc) c lang
          { name := s.name, logo := s.logo, genres := [joinedGenres s] } s.url := by
    unfold parse_m3u_file generate_unified_playlist
    have hskip : parseLoop fmt ebr (strUpper cc) c lang
        ("#EXTM3U".toList ::
          (stations.map fun s => [unifiedExtinfLine s, s.url.toList]).flatten) none =
        parseLoop fmt ebr (strUpper cc) c lang
          ((stations.map fun s => [unifiedExtinfLine s, s.url.toList]).flatten) none := by
      simp only [parseLoop]
      rw [if_pos (Or.inr (Or.inr (by decide)))]
    rw [hskip, parse_emit_go fmt ebr (strUpper cc) c lang stations none h]
  constructor
  · rw [hmain, List.map_map]
    exact List.map_congr_left fun s hs => rfl
  · intro h1
    rw [hmain, List.map_map]
    refine List.map_congr_left fun s hs => ?_
    obtain ⟨g, hg⟩ := List.length_eq_one.mp (h1 s hs)
    show (s.name, s.url, [joinedGenres s]) = (s.name, s.url, s.genres)
    simp [joinedGenres, hg, joinChars, mk_toList]

/-- C1 witness: the amended statement applied to the concrete two-genre
station, showing names and urls round-trip while the genres collapse to
`["Jazz,Pop"]`. -/
theorem C1_witness :
    ((parse_m3u_file fmt0 ebr0 "de" "Germany" []
        (generate_unified_playlist cexStations)).map
      fun st => (st.name, st.url, st.genres)) =
      cexStations.map fun s => (s.name, s.url, [joinedGenres s]) :=
  (C1_roundtrip_amended fmt0 ebr0 "de" "Germany" [] cexStations
    (by unfold EmitSafe; decide)).1

end IPRD
